import Mathlib

set_option maxHeartbeats 1000000

/-!
Shallow embedding of the `pricesplease` extraction / normalization / ingestion
pipeline.

Strings are modelled as `List Char`; the Python `re` operations used by the
source are modelled character by character over the ASCII ranges that the
source's patterns use (`\w` as ASCII alphanumerics plus underscore, `\s` as the
six ASCII whitespace characters, `str.lower`/`str.upper` on the ASCII letter
ranges).  Python `float` prices are modelled as exact rationals (`ℚ`), and
`round(x, 2)` as banker's rounding of the exact value to two decimal places.
The relational store of `src/db/models.py` is modelled as in-memory lists of
rows with the schema's unique constraints checked at each commit, and the
read-then-create race of concurrent writers is modelled by rows injected
between a `find` and its subsequent `commit` (`Interference`).
-/

/-- Word character of Python's regex `\b` boundary, ASCII fragment of `\w`:
letters, digits and underscore. -/
def isWordChar (c : Char) : Bool :=
  (65 ≤ c.toNat && c.toNat ≤ 90) || (97 ≤ c.toNat && c.toNat ≤ 122) ||
  (48 ≤ c.toNat && c.toNat ≤ 57) || c.toNat == 95

/-- Whitespace of Python's regex `\s` and `str.strip`, ASCII fragment:
space, tab, newline, carriage return, vertical tab, form feed. -/
def pyIsSpace (c : Char) : Bool :=
  c.toNat == 32 || c.toNat == 9 || c.toNat == 10 ||
  c.toNat == 13 || c.toNat == 11 || c.toNat == 12

/-- ASCII decimal digit, Python regex `\d` (ASCII fragment). -/
def isDigitCh (c : Char) : Bool :=
  48 ≤ c.toNat && c.toNat ≤ 57

/-- Python `str.lower` on one character (ASCII fragment). -/
def lowerCh (c : Char) : Char :=
  if 65 ≤ c.toNat && c.toNat ≤ 90 then Char.ofNat (c.toNat + 32) else c

/-- Python `str.upper` on one character (ASCII fragment). -/
def upperCh (c : Char) : Char :=
  if 97 ≤ c.toNat && c.toNat ≤ 122 then Char.ofNat (c.toNat - 32) else c

/-- The apostrophe character (ASCII 39), used inside two stop words. -/
def aposS : String := String.mk [Char.ofNat 39]

/-- If `p` is a literal prefix of `s`, return the remainder of `s`. -/
def dropPrefixCh : List Char → List Char → Option (List Char)
  | [], s => some s
  | _ :: _, [] => none
  | p :: ps, c :: cs => if p == c then dropPrefixCh ps cs else none

/-- Left word boundary for a match that begins with a word character:
start of string, or preceding character not a word character. -/
def boundaryL (prev : Option Char) : Bool :=
  match prev with
  | none => true
  | some c => !isWordChar c

/-- Right word boundary for a match that ends with a word character:
end of string, or following character not a word character. -/
def boundaryR : List Char → Bool
  | [] => true
  | c :: _ => !isWordChar c

/-- Attempt to match the literal word `w0 :: wr` with `\b` on both sides at
the current position (`c :: cs`), where `prev` is the character preceding the
position.  On success return the remainder after the match. -/
def fireAt (w0 : Char) (wr : List Char) (prev : Option Char) (c : Char)
    (cs : List Char) : Option (List Char) :=
  if boundaryL prev then
    match dropPrefixCh (w0 :: wr) (c :: cs) with
    | some rest => if boundaryR rest then some rest else none
    | none => none
  else none

/-- Python `re.sub(rf'\b{word}\b', '', s)` for a literal nonempty `word`,
scanning left to right over non-overlapping matches.  The `fuel` argument is
an upper bound on the remaining length, making the recursion structural. -/
def removeWordFuel (w0 : Char) (wr : List Char) :
    Nat → Option Char → List Char → List Char
  | _, _, [] => []
  | 0, _, s => s
  | fuel + 1, prev, c :: cs =>
    match fireAt w0 wr prev c cs with
    | some rest => removeWordFuel w0 wr fuel (some (wr.getLastD w0)) rest
    | none => c :: removeWordFuel w0 wr fuel (some c) cs

/-- Python `re.sub(rf'\b{word}\b', '', s)` for a literal `word`. -/
def removeWord (w : List Char) (s : List Char) : List Char :=
  match w with
  | [] => s
  | w0 :: wr => removeWordFuel w0 wr s.length none s

/-- Whether `re.search(rf'\b{word}\b', s)` would find a whole-word occurrence
of the literal word `w0 :: wr` in `s`, with `prev` the character before the
current position. -/
def hasMatchAux (w0 : Char) (wr : List Char) (prev : Option Char) :
    List Char → Bool
  | [] => false
  | c :: cs => (fireAt w0 wr prev c cs).isSome || hasMatchAux w0 wr (some c) cs

/-- Whether the literal word `w` occurs in `s` as a whole word (with `\b`
boundaries on both sides). -/
def hasMatch (w : List Char) (s : List Char) : Bool :=
  match w with
  | [] => false
  | w0 :: wr => hasMatchAux w0 wr none s

/-- Filler words that stores like to add to titles
(`TitleNormalizer.STOP_WORDS` in `src/services/normalization.py`). -/
def TitleNormalizer.STOP_WORDS : List String :=
  ["edition", "premium", "deluxe", "standard", "ultimate",
   "goty", "game of the year", "director" ++ aposS ++ "s cut",
   "ps4", "ps5", "xbox one", "xbox series x", "pc",
   "friend" ++ aposS ++ "s pass"]

/-- Step 2 of `TitleNormalizer.normalize`:
`re.sub(r'[™®©]', '', title)`. -/
def stripTrademarks (s : List Char) : List Char :=
  s.filter (fun c => !(c.toNat == 8482 || c.toNat == 174 || c.toNat == 169))

/-- Step 3 of `TitleNormalizer.normalize`: the loop removing each stop word
with `re.sub(rf'\b{word}\b', '', title)`, in list order. -/
def removeStopWords (s : List Char) : List Char :=
  TitleNormalizer.STOP_WORDS.foldl (fun acc w => removeWord w.data acc) s

/-- Step 4 of `TitleNormalizer.normalize`:
`re.sub(r'[^a-z0-9\s]', ' ', title)` — keep lowercase letters, digits and
whitespace, replace everything else with a space. -/
def punctToSpace (s : List Char) : List Char :=
  s.map (fun c =>
    if (97 ≤ c.toNat && c.toNat ≤ 122) || isDigitCh c || pyIsSpace c then c
    else ' ')

/-- Collapse every maximal run of whitespace to a single space
(`re.sub(r'\s+', ' ', title)`); `prevSpace` records whether the previous
input character belonged to a run already emitted. -/
def collapseWsAux (prevSpace : Bool) : List Char → List Char
  | [] => []
  | c :: cs =>
    if pyIsSpace c then
      if prevSpace then collapseWsAux true cs
      else ' ' :: collapseWsAux true cs
    else c :: collapseWsAux false cs

/-- Python `re.sub(r'\s+', ' ', title)`. -/
def collapseWs (s : List Char) : List Char :=
  collapseWsAux false s

/-- Remove trailing whitespace. -/
def stripTrail : List Char → List Char
  | [] => []
  | c :: cs =>
    match stripTrail cs with
    | [] => if pyIsSpace c then [] else [c]
    | r => c :: r

/-- Python `str.strip()`: remove leading and trailing whitespace. -/
def stripCh (s : List Char) : List Char :=
  stripTrail (s.dropWhile pyIsSpace)

/-- The title normalization engine `TitleNormalizer.normalize` of
`src/services/normalization.py`: lowercase, strip trademark glyphs, remove
stop words with word boundaries, replace punctuation with spaces, collapse
whitespace and strip. -/
def TitleNormalizer.normalize (raw : String) : String :=
  String.mk (stripCh (collapseWs (punctToSpace
    (removeStopWords (stripTrademarks (raw.data.map lowerCh))))))

/-- Slug derivation in `process_scraped_game`:
`clean_title.replace(" ", "-")`. -/
def slugOf (s : String) : String :=
  String.mk (s.data.map (fun c => if c == ' ' then '-' else c))

/-- Approximate exchange rates to USD, `CONVERSION_RATES` in
`src/services/scraper.py` (exact decimal values). -/
def CONVERSION_RATES : List (String × ℚ) :=
  [("RON", 21/100), ("EUR", 108/100), ("GBP", 126/100),
   ("UAH", 26/1000), ("USD", 1)]

/-- Python `dict.get(currency.upper(), 1.0)` over `CONVERSION_RATES`. -/
def lookupRate (currency : String) : ℚ :=
  match CONVERSION_RATES.find? (fun p => p.fst == String.mk (currency.data.map upperCh)) with
  | some p => p.snd
  | none => 1

/-- Python `round` to an integer: banker's rounding (round half to even) of
the exact value. -/
def pyRoundInt (q : ℚ) : ℤ :=
  if q - ⌊q⌋ < 1/2 then ⌊q⌋
  else if 1/2 < q - ⌊q⌋ then ⌊q⌋ + 1
  else if ⌊q⌋ % 2 = 0 then ⌊q⌋ else ⌊q⌋ + 1

/-- Python `round(x, 2)`: banker's rounding of the exact value to two decimal
places. -/
def pyRound2 (q : ℚ) : ℚ :=
  (pyRoundInt (q * 100) : ℚ) / 100

/-- Currency conversion `convert_to_usd` of `src/services/scraper.py`:
multiply by the static rate (unknown codes default to 1.0) and round to two
decimal places. -/
def convert_to_usd (price : ℚ) (currency : String) : ℚ :=
  pyRound2 (price * lookupRate currency)

/-- Python `text.split('\n')` on character lists, accumulating the current
line in reverse. -/
def splitNlAux (acc : List Char) : List Char → List (List Char)
  | [] => [acc.reverse]
  | c :: cs =>
    if c == '\n' then acc.reverse :: splitNlAux [] cs
    else splitNlAux (c :: acc) cs

/-- Python `text.split('\n')`. -/
def splitNl (s : List Char) : List (List Char) :=
  splitNlAux [] s

/-- The stripped nonempty lines of `text`, as in `extract_price`:
`[line.strip() for line in text.split('\n') if line.strip()]`. -/
def strippedLines (s : List Char) : List (List Char) :=
  ((splitNl s).map stripCh).filter (fun l => !l.isEmpty)

/-- Python `re.findall(r"\d+[.,]\d+", line)`: each match is a maximal digit
run, one decimal separator, and a maximal digit run; matches are
non-overlapping, scanning left to right.  `fuel` bounds the remaining length,
making the recursion structural. -/
def findDecFuel : Nat → List Char → List (List Char)
  | _, [] => []
  | 0, _ => []
  | fuel + 1, c :: cs =>
    if isDigitCh c then
      let p1 := List.span isDigitCh (c :: cs)
      match p1.snd with
      | [] => []
      | sep :: r2 =>
        if sep == '.' || sep == ',' then
          let p2 := List.span isDigitCh r2
          if p2.fst.isEmpty then findDecFuel fuel (sep :: r2)
          else (p1.fst ++ sep :: p2.fst) :: findDecFuel fuel p2.snd
        else findDecFuel fuel (sep :: r2)
    else findDecFuel fuel cs

/-- Python `re.findall(r"\d+[.,]\d+", line)`. -/
def findDecimalMatches (s : List Char) : List (List Char) :=
  findDecFuel s.length s

/-- Python `re.findall(r"\d+", line)`: the maximal digit runs in order. -/
def findIntFuel : Nat → List Char → List (List Char)
  | _, [] => []
  | 0, _ => []
  | fuel + 1, c :: cs =>
    if isDigitCh c then
      let p := List.span isDigitCh (c :: cs)
      p.fst :: findIntFuel fuel p.snd
    else findIntFuel fuel cs

/-- Python `re.findall(r"\d+", line)`. -/
def findIntMatches (s : List Char) : List (List Char) :=
  findIntFuel s.length s

/-- Numeric value of a digit string, as Python `int`. -/
def parseNat (s : List Char) : Nat :=
  s.foldl (fun n c => n * 10 + (c.toNat - 48)) 0

/-- Exact value of Python `float(m.replace(",", "."))` for a match `m` of
`\d+[.,]\d+` (integer part, separator, fractional part). -/
def parseDec (m : List Char) : ℚ :=
  let p := List.span isDigitCh m
  match p.snd with
  | _ :: fp => (parseNat p.fst : ℚ) + (parseNat fp : ℚ) / (10 ^ fp.length)
  | [] => (parseNat p.fst : ℚ)

/-- Whether `pat` occurs as a contiguous substring of `s`. -/
def containsSub (pat : List Char) : List Char → Bool
  | [] => pat.isEmpty
  | c :: cs => pat.isPrefixOf (c :: cs) || containsSub pat cs

/-- The currency-marker search of `extract_price`:
`re.search(r"(?:lei|ron|\$|€|£|usd|₴|uah|грн)", line, re.IGNORECASE)`,
modelled by substring search over the lowercased line. -/
def hasCurrencyMarker (line : List Char) : Bool :=
  let l := line.map lowerCh
  ["lei", "ron", "$", "€", "£", "usd", "₴", "uah", "грн"].any
    (fun pat => containsSub pat.data l)

/-- The `for line in reversed(lines)` loop of `extract_price`, given the lines
already reversed: prefer the last decimal-formatted number on a line,
otherwise on a line with a currency marker the last bare integer. -/
def priceFromLines : List (List Char) → ℚ
  | [] => 0
  | line :: rest =>
    match (findDecimalMatches line).getLast? with
    | some m => parseDec (m.map (fun c => if c == ',' then '.' else c))
    | none =>
      if hasCurrencyMarker line then
        match (findIntMatches line).getLast? with
        | some w => (parseNat w : ℚ)
        | none => priceFromLines rest
      else priceFromLines rest

/-- Price extraction `extract_price` of `src/services/scraper.py`. -/
def extract_price (text : String) : ℚ :=
  if text.data.isEmpty then 0
  else
    let lines := strippedLines text.data
    if lines.any (fun l => l.map lowerCh == "free".data) then 0
    else priceFromLines lines.reverse

/-- Discount extraction `extract_discount` of `src/services/scraper.py`:
the first integer substring, or 0. -/
def extract_discount (text : String) : ℤ :=
  if text.data.isEmpty then 0
  else
    match (findIntMatches text.data).head? with
    | some m => (parseNat m : ℤ)
    | none => 0

/-- Row of the `stores` table (`Store` in `src/db/models.py`): integer
primary key, unique name, base URL. -/
structure Store where
  id : Nat
  name : String
  base_url : String
deriving DecidableEq

/-- Row of the `games` table (`Game` in `src/db/models.py`): generated id,
normalized title, unique slug.  Generated UUIDs are modelled by naturals
drawn from a per-database counter; the server-side `created_at` timestamp is
not modelled. -/
structure Game where
  id : Nat
  title : String
  slug : String
deriving DecidableEq

/-- Row of the `game_listings` table (`GameListing` in `src/db/models.py`):
generated id, foreign keys to a game and a store, store-native `remote_id`
(unique together with `store_id`), raw listing title and URL.  The `status`
column (always created with its default ACTIVE and never touched by the
ingestion engine) is not modelled. -/
structure GameListing where
  id : Nat
  game_id : Nat
  store_id : Nat
  remote_id : String
  listing_title : String
  url : String
deriving DecidableEq

/-- Row of the `price_history` table (`PriceHistory` in `src/db/models.py`):
autoincrement id, foreign key to a listing, price, currency, discount.  The
server-side `scraped_at` timestamp is not modelled; insertion order stands in
for it. -/
structure PriceHistory where
  id : Nat
  listing_id : Nat
  price : ℚ
  currency : String
  discount_percent : ℤ
deriving DecidableEq

/-- The relational store: the four tables plus the generator for fresh row
ids (modelling UUID defaults and the autoincrement primary key). -/
structure DB where
  stores : List Store
  games : List Game
  listings : List GameListing
  prices : List PriceHistory
  nextId : Nat
deriving DecidableEq

/-- The empty database. -/
def emptyDB : DB := ⟨[], [], [], [], 0⟩

deriving instance DecidableEq for Except

/-- Database error surfaced by a failed commit: the duplicate-key
`IntegrityError` raised when an insert violates a unique constraint. -/
inductive DBErr where
  | integrityError
deriving DecidableEq

/-- Rows inserted by concurrent writers between a `find` query of
`process_scraped_game` and its subsequent commit: the read-then-create race
window of each of the store, game and listing steps. -/
structure Interference where
  storeRows : List Store
  gameRows : List Game
  listingRows : List GameListing
deriving DecidableEq

/-- No concurrent writer: sequential execution. -/
def noInterference : Interference := ⟨[], [], []⟩

/-- Unique-constraint check for inserting a store: primary key `id` and the
unique `name` column. -/
def storeConflict (db : DB) (s : Store) : Bool :=
  db.stores.any (fun t => t.id == s.id || t.name == s.name)

/-- Unique-constraint check for inserting a game: primary key `id` and the
unique `slug` column. -/
def gameConflict (db : DB) (g : Game) : Bool :=
  db.games.any (fun t => t.id == g.id || t.slug == g.slug)

/-- Unique-constraint check for inserting a listing: primary key `id` and
the unique index on `(store_id, remote_id)`. -/
def listingConflict (db : DB) (l : GameListing) : Bool :=
  db.listings.any (fun t =>
    t.id == l.id || (t.store_id == l.store_id && t.remote_id == l.remote_id))

/-- Step 4 of `process_scraped_game` (src/services/crud.py): unconditionally
append a new `PriceHistory` row for the listing and commit. -/
def priceStep (db : DB) (game : Game) (listing_id : Nat) (price : ℚ)
    (currency : String) (discount_percent : ℤ) : Except DBErr Game × DB :=
  (Except.ok game,
   { db with
     prices := db.prices ++ [⟨db.nextId, listing_id, price, currency, discount_percent⟩],
     nextId := db.nextId + 1 })

/-- Step 3 of `process_scraped_game`: query the listing by
`(store_id, remote_id)`; if absent, create it and commit — a commit that hits
the unique index aborts with `IntegrityError` (the source has no handler).
`env.listingRows` are rows committed by concurrent writers between the query
and the commit. -/
def listingStep (env : Interference) (db : DB) (game : Game) (store_id : Nat)
    (raw_title remote_id url : String) (price : ℚ) (currency : String)
    (discount_percent : ℤ) : Except DBErr Game × DB :=
  let found := db.listings.find? (fun l =>
    l.store_id == store_id && l.remote_id == remote_id)
  let db1 : DB := { db with listings := db.listings ++ env.listingRows }
  match found with
  | some l => priceStep db1 game l.id price currency discount_percent
  | none =>
    let l : GameListing := ⟨db1.nextId, game.id, store_id, remote_id, raw_title, url⟩
    if listingConflict db1 l then (Except.error DBErr.integrityError, db1)
    else
      priceStep { db1 with listings := db1.listings ++ [l], nextId := db1.nextId + 1 }
        game l.id price currency discount_percent

/-- Step 2 of `process_scraped_game`: normalize the title, derive the slug,
query the game by slug; if absent, create it and commit — a commit that hits
the unique slug constraint aborts with `IntegrityError`. -/
def gameStep (env : Interference) (db : DB) (store_id : Nat)
    (raw_title remote_id url : String) (price : ℚ) (currency : String)
    (discount_percent : ℤ) : Except DBErr Game × DB :=
  let slug := slugOf (TitleNormalizer.normalize raw_title)
  let found := db.games.find? (fun g => g.slug == slug)
  let db1 : DB := { db with games := db.games ++ env.gameRows }
  match found with
  | some g =>
    listingStep env db1 g store_id raw_title remote_id url price currency discount_percent
  | none =>
    let g : Game := ⟨db1.nextId, TitleNormalizer.normalize raw_title, slug⟩
    if gameConflict db1 g then (Except.error DBErr.integrityError, db1)
    else
      listingStep env
        { db1 with games := db1.games ++ [g], nextId := db1.nextId + 1 }
        g store_id raw_title remote_id url price currency discount_percent

/-- The ingestion engine `process_scraped_game` of `src/services/crud.py`:
find or create the store, game and listing, then record the latest price.
Each step commits separately; a commit that violates a unique constraint
raises `IntegrityError`, which no step catches.  The result pairs the
returned game (or the surfaced error) with the database after the last
successful commit. -/
def process_scraped_game (env : Interference) (db0 : DB) (store_id : Nat)
    (store_name raw_title remote_id url : String) (price : ℚ)
    (currency : String) (discount_percent : ℤ) : Except DBErr Game × DB :=
  let found := db0.stores.find? (fun s => s.id == store_id)
  let db1 : DB := { db0 with stores := db0.stores ++ env.storeRows }
  match found with
  | some _ =>
    gameStep env db1 store_id raw_title remote_id url price currency discount_percent
  | none =>
    let s : Store := ⟨store_id, store_name, "https://example.com"⟩
    if storeConflict db1 s then (Except.error DBErr.integrityError, db1)
    else
      gameStep env { db1 with stores := db1.stores ++ [s] }
        store_id raw_title remote_id url price currency discount_percent

/-- A scraped record at the ingestion boundary
(`GameScrapeRequest` in `src/schemas/game.py`). -/
structure ScrapedRecord where
  store_id : Nat
  store_name : String
  raw_title : String
  remote_id : String
  url : String
  price : ℚ
  currency : String
  discount_percent : ℤ
deriving DecidableEq

/-- Ingest one record (the `/api/v1/games/parse` webhook handing the payload
to `process_scraped_game`). -/
def ingestRecord (env : Interference) (db : DB) (r : ScrapedRecord) :
    Except DBErr Game × DB :=
  process_scraped_game env db r.store_id r.store_name r.raw_title r.remote_id
    r.url r.price r.currency r.discount_percent

/-- Sequentially ingest a list of records with no concurrent writer. -/
def ingestAll (recs : List ScrapedRecord) (db : DB) : DB :=
  recs.foldl (fun d r => (ingestRecord noInterference d r).snd) db

/-- Sequentially ingest the same record `n` times with no concurrent
writer. -/
def ingestIterN (r : ScrapedRecord) : Nat → DB → DB
  | 0, db => db
  | n + 1, db => ingestIterN r n (ingestRecord noInterference db r).snd

/-- Whether no stop word of the normalizer occurs in `s` as a whole word. -/
def noStopWordMatch (s : List Char) : Bool :=
  TitleNormalizer.STOP_WORDS.all (fun w => !hasMatch w.data s)

/-- Characters that can appear in a normalized title: lowercase ASCII
letters, digits, and the plain space. -/
def goodChar (c : Char) : Bool :=
  (97 ≤ c.toNat && c.toNat ≤ 122) || isDigitCh c || c == ' '

/-- Characters kept verbatim by `punctToSpace`: lowercase letters, digits,
or whitespace. -/
def azDigitSpace (c : Char) : Bool :=
  (97 ≤ c.toNat && c.toNat ≤ 122) || isDigitCh c || pyIsSpace c

/-- No two adjacent whitespace characters. -/
def noTwoSpaces : List Char → Bool
  | a :: b :: t => (!(pyIsSpace a && pyIsSpace b)) && noTwoSpaces (b :: t)
  | _ => true

/-- The first character, if any, is not whitespace. -/
def headNotSpace : List Char → Bool
  | [] => true
  | c :: _ => !pyIsSpace c

/-- The last character, if any, is not whitespace. -/
def lastNotSpace : List Char → Bool
  | [] => true
  | [c] => !pyIsSpace c
  | _ :: c :: t => lastNotSpace (c :: t)

/-- Closed form of the database after `k ≥ 1` sequential ingestions of the
same record starting from the empty database: one store, one game, one
listing, and `k` price rows. -/
def afterN (r : ScrapedRecord) (k : Nat) : DB :=
  ⟨[⟨r.store_id, r.store_name, "https://example.com"⟩],
   [⟨0, TitleNormalizer.normalize r.raw_title,
     slugOf (TitleNormalizer.normalize r.raw_title)⟩],
   [⟨1, 0, r.store_id, r.remote_id, r.raw_title, r.url⟩],
   (List.range k).map (fun i => ⟨i + 2, 1, r.price, r.currency, r.discount_percent⟩),
   k + 2⟩

lemma removeWordFuel_of_not_hasMatch (w0 : Char) (wr : List Char) :
    ∀ (s : List Char) (fuel : Nat) (prev : Option Char),
    hasMatchAux w0 wr prev s = false → removeWordFuel w0 wr fuel prev s = s := by
  intro s
  induction s with
  | nil => intro fuel prev _; cases fuel <;> rfl
  | cons c cs ih =>
    intro fuel prev h
    rw [hasMatchAux, Bool.or_eq_false_iff] at h
    cases fuel with
    | zero => rfl
    | succ fuel =>
      rw [removeWordFuel]
      have hfire : fireAt w0 wr prev c cs = none := by
        cases hf : fireAt w0 wr prev c cs with
        | none => rfl
        | some rest => rw [hf] at h; simp at h
      rw [hfire, ih fuel (some c) h.2]

lemma removeWord_of_not_hasMatch (w s : List Char) (h : hasMatch w s = false) :
    removeWord w s = s := by
  cases w with
  | nil => rfl
  | cons w0 wr => exact removeWordFuel_of_not_hasMatch w0 wr s s.length none h

lemma foldl_removeWord_of_no_match :
    ∀ (ws : List String) (s : List Char),
    ws.all (fun w => !hasMatch w.data s) = true →
    ws.foldl (fun acc w => removeWord w.data acc) s = s := by
  intro ws
  induction ws with
  | nil => intro s _; rfl
  | cons w rest ih =>
    intro s h
    rw [List.all_cons, Bool.and_eq_true, Bool.not_eq_true'] at h
    rw [List.foldl_cons, removeWord_of_not_hasMatch w.data s h.1, ih s h.2]

lemma removeStopWords_of_no_match (s : List Char) (h : noStopWordMatch s = true) :
    removeStopWords s = s :=
  foldl_removeWord_of_no_match TitleNormalizer.STOP_WORDS s h

lemma goodChar_space : goodChar ' ' = true := by decide

lemma pyIsSpace_of_goodChar {c : Char} (hg : goodChar c = true)
    (hs : pyIsSpace c = true) : c = ' ' := by
  simp only [goodChar, isDigitCh, pyIsSpace, Bool.or_eq_true, Bool.and_eq_true,
    decide_eq_true_eq, beq_iff_eq, or_assoc] at hg hs
  rcases hg with ⟨h1, h2⟩ | ⟨h1, h2⟩ | h
  · rcases hs with h3 | h3 | h3 | h3 | h3 | h3 <;> omega
  · rcases hs with h3 | h3 | h3 | h3 | h3 | h3 <;> omega
  · exact h

lemma goodChar_of_azDigitSpace {c : Char} (h : azDigitSpace c = true)
    (hs : pyIsSpace c = false) : goodChar c = true := by
  simp only [azDigitSpace, Bool.or_eq_true, or_assoc] at h
  rcases h with h1 | h1 | h1
  · simp only [goodChar, Bool.or_eq_true, or_assoc]; exact Or.inl h1
  · simp only [goodChar, Bool.or_eq_true, or_assoc]; exact Or.inr (Or.inl h1)
  · rw [h1] at hs; cases hs

lemma noTwoSpaces_tail {a : Char} {t : List Char}
    (h : noTwoSpaces (a :: t) = true) : noTwoSpaces t = true := by
  cases t with
  | nil => rfl
  | cons b t' => rw [noTwoSpaces, Bool.and_eq_true] at h; exact h.2

lemma noTwoSpaces_cons_of_headNotSpace {c : Char} {t : List Char}
    (hc : pyIsSpace c = false) (ht : noTwoSpaces t = true) :
    noTwoSpaces (c :: t) = true := by
  cases t with
  | nil => rfl
  | cons b t' => rw [noTwoSpaces, Bool.and_eq_true, hc]; exact ⟨rfl, ht⟩

lemma noTwoSpaces_space_cons {t : List Char} (hh : headNotSpace t = true)
    (ht : noTwoSpaces t = true) : noTwoSpaces (' ' :: t) = true := by
  cases t with
  | nil => rfl
  | cons b t' =>
    rw [headNotSpace, Bool.not_eq_true'] at hh
    rw [noTwoSpaces, Bool.and_eq_true, hh]
    exact ⟨rfl, ht⟩

lemma collapseWsAux_shape :
    ∀ (s : List Char) (flag : Bool), s.all azDigitSpace = true →
    ((collapseWsAux flag s).all goodChar = true ∧
     noTwoSpaces (collapseWsAux flag s) = true ∧
     (flag = true → headNotSpace (collapseWsAux flag s) = true)) := by
  intro s
  induction s with
  | nil => intro flag _; exact ⟨rfl, rfl, fun _ => rfl⟩
  | cons c cs ih =>
    intro flag h
    rw [List.all_cons, Bool.and_eq_true] at h
    by_cases hsp : pyIsSpace c = true
    · cases flag with
      | true =>
        rw [collapseWsAux, if_pos hsp, if_pos rfl]
        exact ih true h.2
      | false =>
        rw [collapseWsAux, if_pos hsp]
        simp only [Bool.false_eq_true, if_false]
        obtain ⟨ha, hn, hh⟩ := ih true h.2
        refine ⟨?_, ?_, ?_⟩
        · rw [List.all_cons, Bool.and_eq_true]; exact ⟨goodChar_space, ha⟩
        · exact noTwoSpaces_space_cons (hh rfl) hn
        · intro hcon; cases hcon
    · rw [Bool.not_eq_true] at hsp
      rw [collapseWsAux, if_neg (by rw [hsp]; exact Bool.false_ne_true)]
      obtain ⟨ha, hn, _⟩ := ih false h.2
      refine ⟨?_, ?_, ?_⟩
      · rw [List.all_cons, Bool.and_eq_true]
        exact ⟨goodChar_of_azDigitSpace h.1 hsp, ha⟩
      · exact noTwoSpaces_cons_of_headNotSpace hsp hn
      · intro _; rw [headNotSpace, hsp]; rfl

lemma stripTrail_cons (c : Char) (cs : List Char) :
    stripTrail (c :: cs) = [] ∨ ∃ t, stripTrail (c :: cs) = c :: t := by
  rw [stripTrail]
  cases h : stripTrail cs with
  | nil =>
    by_cases hs : pyIsSpace c = true
    · left; rw [if_pos hs]
    · right; exact ⟨[], by rw [if_neg hs]⟩
  | cons a as => right; exact ⟨a :: as, rfl⟩

lemma all_stripTrail {p : Char → Bool} :
    ∀ s : List Char, s.all p = true → (stripTrail s).all p = true := by
  intro s
  induction s with
  | nil => intro h; exact h
  | cons c cs ih =>
    intro h
    rw [List.all_cons, Bool.and_eq_true] at h
    rw [stripTrail]
    cases heq : stripTrail cs with
    | nil =>
      by_cases hs : pyIsSpace c = true
      · rw [if_pos hs]; rfl
      · rw [if_neg hs, List.all_cons, Bool.and_eq_true]; exact ⟨h.1, rfl⟩
    | cons a as =>
      rw [List.all_cons, Bool.and_eq_true]
      exact ⟨h.1, heq ▸ ih h.2⟩

lemma noTwoSpaces_stripTrail :
    ∀ s : List Char, noTwoSpaces s = true → noTwoSpaces (stripTrail s) = true := by
  intro s
  induction s with
  | nil => intro h; exact h
  | cons c cs ih =>
    intro h
    rw [stripTrail]
    cases heq : stripTrail cs with
    | nil =>
      by_cases hs : pyIsSpace c = true
      · rw [if_pos hs]; rfl
      · rw [if_neg hs]; rfl
    | cons a as =>
      have hcs : noTwoSpaces cs = true := noTwoSpaces_tail h
      have hrec : noTwoSpaces (a :: as) = true := heq ▸ ih hcs
      cases cs with
      | nil => cases heq
      | cons d t =>
        rcases stripTrail_cons d t with h0 | ⟨t', h1⟩
        · rw [h0] at heq; cases heq
        · rw [h1] at heq
          cases heq
          rw [noTwoSpaces, Bool.and_eq_true]
          rw [noTwoSpaces, Bool.and_eq_true] at h
          exact ⟨h.1, hrec⟩

lemma lastNotSpace_stripTrail :
    ∀ s : List Char, lastNotSpace (stripTrail s) = true := by
  intro s
  induction s with
  | nil => rfl
  | cons c cs ih =>
    rw [stripTrail]
    cases heq : stripTrail cs with
    | nil =>
      by_cases hs : pyIsSpace c = true
      · rw [if_pos hs]; rfl
      · rw [if_neg hs, lastNotSpace, Bool.not_eq_true']
        rw [Bool.not_eq_true] at hs; exact hs
    | cons a as =>
      rw [lastNotSpace]
      rw [heq] at ih; exact ih

lemma headNotSpace_stripTrail {s : List Char} (h : headNotSpace s = true) :
    headNotSpace (stripTrail s) = true := by
  cases s with
  | nil => rfl
  | cons c cs =>
    rcases stripTrail_cons c cs with h0 | ⟨t, h1⟩
    · rw [h0]; rfl
    · rw [h1]; exact h

lemma all_dropWhile {p q : Char → Bool} :
    ∀ s : List Char, s.all p = true → (s.dropWhile q).all p = true := by
  intro s
  induction s with
  | nil => intro h; exact h
  | cons c cs ih =>
    intro h
    rw [List.all_cons, Bool.and_eq_true] at h
    rw [List.dropWhile_cons]
    by_cases hq : q c = true
    · rw [if_pos hq]; exact ih h.2
    · rw [if_neg hq, List.all_cons, Bool.and_eq_true]; exact ⟨h.1, h.2⟩

lemma noTwoSpaces_dropWhile {q : Char → Bool} :
    ∀ s : List Char, noTwoSpaces s = true →
    noTwoSpaces (s.dropWhile q) = true := by
  intro s
  induction s with
  | nil => intro h; exact h
  | cons c cs ih =>
    intro h
    rw [List.dropWhile_cons]
    by_cases hq : q c = true
    · rw [if_pos hq]; exact ih (noTwoSpaces_tail h)
    · rw [if_neg hq]; exact h

lemma headNotSpace_dropWhile :
    ∀ s : List Char, headNotSpace (s.dropWhile pyIsSpace) = true := by
  intro s
  induction s with
  | nil => rfl
  | cons c cs ih =>
    rw [List.dropWhile_cons]
    by_cases hq : pyIsSpace c = true
    · rw [if_pos hq]; exact ih
    · rw [if_neg hq, headNotSpace, Bool.not_eq_true']
      rw [Bool.not_eq_true] at hq; exact hq

lemma punctToSpace_all (s : List Char) :
    (punctToSpace s).all azDigitSpace = true := by
  rw [punctToSpace, List.all_map, List.all_eq_true]
  intro c _
  by_cases hc : ((97 ≤ c.toNat && c.toNat ≤ 122) || isDigitCh c || pyIsSpace c) = true
  · simp only [Function.comp_apply, if_pos hc]; exact hc
  · simp only [Function.comp_apply, if_neg hc]; decide

/-- The output of the final three steps of `normalize` consists of good
characters, has no adjacent whitespace, and is stripped at both ends. -/
lemma normalizeTail_shape (s : List Char) :
    (stripCh (collapseWs (punctToSpace s))).all goodChar = true ∧
    noTwoSpaces (stripCh (collapseWs (punctToSpace s))) = true ∧
    headNotSpace (stripCh (collapseWs (punctToSpace s))) = true ∧
    lastNotSpace (stripCh (collapseWs (punctToSpace s))) = true := by
  obtain ⟨ha, hn, _⟩ :=
    collapseWsAux_shape (punctToSpace s) false (punctToSpace_all s)
  rw [stripCh]
  refine ⟨?_, ?_, ?_, ?_⟩
  · exact all_stripTrail _ (all_dropWhile _ ha)
  · exact noTwoSpaces_stripTrail _ (noTwoSpaces_dropWhile _ hn)
  · exact headNotSpace_stripTrail (headNotSpace_dropWhile _)
  · exact lastNotSpace_stripTrail _

lemma map_id_of_mem {f : Char → Char} :
    ∀ s : List Char, (∀ c ∈ s, f c = c) → s.map f = s := by
  intro s
  induction s with
  | nil => intro _; rfl
  | cons c cs ih =>
    intro h
    rw [List.map_cons, h c (List.mem_cons_self c cs),
      ih (fun a ha => h a (List.mem_cons_of_mem c ha))]

lemma lowerCh_fix {c : Char} (h : goodChar c = true) : lowerCh c = c := by
  simp only [goodChar, isDigitCh, Bool.or_eq_true, Bool.and_eq_true,
    decide_eq_true_eq, beq_iff_eq, or_assoc] at h
  rcases h with ⟨h1, h2⟩ | ⟨h1, h2⟩ | h
  · rw [lowerCh, if_neg]
    simp only [Bool.and_eq_true, decide_eq_true_eq, not_and]
    omega
  · rw [lowerCh, if_neg]
    simp only [Bool.and_eq_true, decide_eq_true_eq, not_and]
    omega
  · rw [h]; decide

lemma map_lowerCh_fix {s : List Char} (h : s.all goodChar = true) :
    s.map lowerCh = s := by
  rw [List.all_eq_true] at h
  exact map_id_of_mem s (fun c hc => lowerCh_fix (h c hc))

lemma stripTrademarks_fix {s : List Char} (h : s.all goodChar = true) :
    stripTrademarks s = s := by
  rw [List.all_eq_true] at h
  rw [stripTrademarks, List.filter_eq_self]
  intro c hc
  have hg := h c hc
  simp only [goodChar, isDigitCh, Bool.or_eq_true, Bool.and_eq_true,
    decide_eq_true_eq, beq_iff_eq, or_assoc] at hg
  simp only [Bool.not_eq_true', Bool.or_eq_false_iff, beq_eq_false_iff_ne, ne_eq]
  rcases hg with ⟨h1, h2⟩ | ⟨h1, h2⟩ | h1
  · omega
  · omega
  · rw [h1]; decide

lemma azDigitSpace_of_goodChar {c : Char} (h : goodChar c = true) :
    azDigitSpace c = true := by
  simp only [goodChar, Bool.or_eq_true, or_assoc] at h
  simp only [azDigitSpace, Bool.or_eq_true, or_assoc]
  rcases h with h1 | h1 | h1
  · exact Or.inl h1
  · exact Or.inr (Or.inl h1)
  · rw [beq_iff_eq] at h1; rw [h1]; right; right; decide

lemma punctToSpace_fix {s : List Char} (h : s.all goodChar = true) :
    punctToSpace s = s := by
  rw [List.all_eq_true] at h
  rw [punctToSpace]
  refine map_id_of_mem s (fun c hc => ?_)
  exact if_pos (azDigitSpace_of_goodChar (h c hc))

lemma collapseWsAux_fix :
    ∀ s : List Char, s.all goodChar = true → noTwoSpaces s = true →
    (collapseWsAux false s = s ∧
     (headNotSpace s = true → collapseWsAux true s = s)) := by
  intro s
  induction s with
  | nil => intro _ _; exact ⟨rfl, fun _ => rfl⟩
  | cons c cs ih =>
    intro ha hn
    rw [List.all_cons, Bool.and_eq_true] at ha
    obtain ⟨ih1, ih2⟩ := ih ha.2 (noTwoSpaces_tail hn)
    by_cases hsp : pyIsSpace c = true
    · have hc : c = ' ' := pyIsSpace_of_goodChar ha.1 hsp
      have hcs : headNotSpace cs = true := by
        cases cs with
        | nil => rfl
        | cons b t =>
          rw [noTwoSpaces, Bool.and_eq_true, hsp] at hn
          rw [headNotSpace, Bool.not_eq_true']
          have := hn.1
          rwa [Bool.not_eq_true', Bool.true_and] at this
      constructor
      · rw [collapseWsAux, if_pos hsp]
        simp only [Bool.false_eq_true, if_false]
        rw [ih2 hcs, hc]
      · intro hcon
        rw [headNotSpace, hsp] at hcon
        cases hcon
    · rw [Bool.not_eq_true] at hsp
      have hif : ∀ flag : Bool, collapseWsAux flag (c :: cs) = c :: collapseWsAux false cs := by
        intro flag
        rw [collapseWsAux, if_neg (by rw [hsp]; exact Bool.false_ne_true)]
      exact ⟨by rw [hif false, ih1], fun _ => by rw [hif true, ih1]⟩

lemma dropWhile_fix {s : List Char} (h : headNotSpace s = true) :
    s.dropWhile pyIsSpace = s := by
  cases s with
  | nil => rfl
  | cons c cs =>
    rw [headNotSpace, Bool.not_eq_true'] at h
    rw [List.dropWhile_cons, if_neg (by rw [h]; exact Bool.false_ne_true)]

lemma stripTrail_fix : ∀ s : List Char, lastNotSpace s = true → stripTrail s = s := by
  intro s
  induction s with
  | nil => intro _; rfl
  | cons c cs ih =>
    intro h
    cases cs with
    | nil =>
      rw [lastNotSpace, Bool.not_eq_true'] at h
      rw [stripTrail]
      show (if pyIsSpace c = true then [] else [c]) = [c]
      rw [if_neg (by rw [h]; exact Bool.false_ne_true)]
    | cons d t =>
      rw [lastNotSpace] at h
      rw [stripTrail, ih h]

lemma stripCh_fix {s : List Char} (hh : headNotSpace s = true)
    (hl : lastNotSpace s = true) : stripCh s = s := by
  rw [stripCh, dropWhile_fix hh, stripTrail_fix s hl]

/-- A clean string (good characters, single spaces, stripped, and no
whole-word stop-word occurrence) is a fixed point of `normalize`. -/
lemma normalize_fix_of_clean (y : String)
    (ha : y.data.all goodChar = true) (hn : noTwoSpaces y.data = true)
    (hh : headNotSpace y.data = true) (hl : lastNotSpace y.data = true)
    (hm : noStopWordMatch y.data = true) :
    TitleNormalizer.normalize y = y := by
  have step : String.mk (stripCh (collapseWs (punctToSpace
      (removeStopWords (stripTrademarks (y.data.map lowerCh)))))) = String.mk y.data := by
    rw [map_lowerCh_fix ha, stripTrademarks_fix ha,
      removeStopWords_of_no_match y.data hm, punctToSpace_fix ha,
      show collapseWs y.data = y.data from (collapseWsAux_fix y.data ha hn).1,
      stripCh_fix hh hl]
  calc TitleNormalizer.normalize y
      = String.mk (stripCh (collapseWs (punctToSpace
          (removeStopWords (stripTrademarks (y.data.map lowerCh)))))) := rfl
    _ = String.mk y.data := step
    _ = y := by cases y; rfl

/-- The normalized form of any title is a clean string: good characters, no
adjacent whitespace, stripped at both ends. -/
lemma normalize_shape (x : String) :
    (TitleNormalizer.normalize x).data.all goodChar = true ∧
    noTwoSpaces (TitleNormalizer.normalize x).data = true ∧
    headNotSpace (TitleNormalizer.normalize x).data = true ∧
    lastNotSpace (TitleNormalizer.normalize x).data = true := by
  simp only [TitleNormalizer.normalize]
  exact normalizeTail_shape (removeStopWords (stripTrademarks (x.data.map lowerCh)))

lemma priceStep_games (db : DB) (g : Game) (lid : Nat) (p : ℚ) (cur : String)
    (dp : ℤ) : (priceStep db g lid p cur dp).snd.games = db.games := rfl

lemma priceStep_stores (db : DB) (g : Game) (lid : Nat) (p : ℚ) (cur : String)
    (dp : ℤ) : (priceStep db g lid p cur dp).snd.stores = db.stores := rfl

lemma priceStep_listings (db : DB) (g : Game) (lid : Nat) (p : ℚ) (cur : String)
    (dp : ℤ) : (priceStep db g lid p cur dp).snd.listings = db.listings := rfl

lemma listingStep_games (env : Interference) (db : DB) (g : Game) (sid : Nat)
    (rt rid url : String) (p : ℚ) (cur : String) (dp : ℤ) :
    (listingStep env db g sid rt rid url p cur dp).snd.games = db.games := by
  unfold listingStep
  dsimp only
  split
  · rfl
  · split
    · rfl
    · rfl

lemma listingStep_stores (env : Interference) (db : DB) (g : Game) (sid : Nat)
    (rt rid url : String) (p : ℚ) (cur : String) (dp : ℤ) :
    (listingStep env db g sid rt rid url p cur dp).snd.stores = db.stores := by
  unfold listingStep
  dsimp only
  split
  · rfl
  · split
    · rfl
    · rfl

lemma gameStep_stores (env : Interference) (db : DB) (sid : Nat)
    (rt rid url : String) (p : ℚ) (cur : String) (dp : ℤ) :
    (gameStep env db sid rt rid url p cur dp).snd.stores = db.stores := by
  unfold gameStep
  dsimp only
  split
  · rw [listingStep_stores]
  · split
    · rfl
    · rw [listingStep_stores]

lemma listingStep_mem (env : Interference) (db : DB) (game : Game) (sid : Nat)
    (rt rid url : String) (p : ℚ) (cur : String) (dp : ℤ) :
    ∀ l ∈ (listingStep env db game sid rt rid url p cur dp).snd.listings,
      l ∈ db.listings ∨ l ∈ env.listingRows ∨
        (l.game_id = game.id ∧ l.store_id = sid) := by
  intro l hl
  unfold listingStep at hl
  dsimp only at hl
  split at hl
  · rw [priceStep_listings] at hl
    dsimp only at hl
    rcases List.mem_append.mp hl with h | h
    · exact Or.inl h
    · exact Or.inr (Or.inl h)
  · split at hl
    · dsimp only at hl
      rcases List.mem_append.mp hl with h | h
      · exact Or.inl h
      · exact Or.inr (Or.inl h)
    · rw [priceStep_listings] at hl
      dsimp only at hl
      rcases List.mem_append.mp hl with h | h
      · rcases List.mem_append.mp h with h' | h'
        · exact Or.inl h'
        · exact Or.inr (Or.inl h')
      · rcases List.mem_singleton.mp h with rfl
        exact Or.inr (Or.inr ⟨rfl, rfl⟩)

lemma gameStep_listing_mem (env : Interference) (db : DB) (sid : Nat)
    (rt rid url : String) (p : ℚ) (cur : String) (dp : ℤ) :
    ∀ l ∈ (gameStep env db sid rt rid url p cur dp).snd.listings,
      l ∈ db.listings ∨ l ∈ env.listingRows ∨
        ((∃ g ∈ (gameStep env db sid rt rid url p cur dp).snd.games,
            g.id = l.game_id) ∧ l.store_id = sid) := by
  intro l hl
  unfold gameStep at hl ⊢
  dsimp only at hl ⊢
  split at hl
  · next g hg =>
    rcases listingStep_mem _ _ _ _ _ _ _ _ _ _ l hl with h | h | ⟨h1, h2⟩
    · exact Or.inl h
    · exact Or.inr (Or.inl h)
    · refine Or.inr (Or.inr ⟨⟨g, ?_, h1.symm⟩, h2⟩)
      rw [listingStep_games]
      dsimp only
      exact List.mem_append.mpr (Or.inl (List.mem_of_find?_eq_some hg))
  · split at hl
    · dsimp only at hl
      exact Or.inl hl
    · next hcond =>
        rcases listingStep_mem _ _ _ _ _ _ _ _ _ _ l hl with h | h | ⟨h1, h2⟩
        · exact Or.inl h
        · exact Or.inr (Or.inl h)
        · refine Or.inr (Or.inr ⟨⟨_, ?_, h1.symm⟩, h2⟩)
          rw [if_neg hcond, listingStep_games]
          dsimp only
          exact List.mem_append.mpr (Or.inr (List.mem_singleton.mpr rfl))

lemma ingest_games_cases (db : DB) (r : ScrapedRecord) :
    (ingestRecord noInterference db r).snd.games = db.games ∨
    (db.games.find?
        (fun g => g.slug == slugOf (TitleNormalizer.normalize r.raw_title)) = none ∧
     (ingestRecord noInterference db r).snd.games =
       db.games ++ [⟨db.nextId, TitleNormalizer.normalize r.raw_title,
         slugOf (TitleNormalizer.normalize r.raw_title)⟩]) := by
  unfold ingestRecord process_scraped_game
  dsimp only [noInterference]
  rw [List.append_nil]
  have hgame : ∀ db' : DB, db'.games = db.games → db'.nextId = db.nextId →
      (gameStep ⟨[], [], []⟩ db' r.store_id r.raw_title r.remote_id r.url
          r.price r.currency r.discount_percent).snd.games = db.games ∨
      (db.games.find?
          (fun g => g.slug == slugOf (TitleNormalizer.normalize r.raw_title)) = none ∧
       (gameStep ⟨[], [], []⟩ db' r.store_id r.raw_title r.remote_id r.url
           r.price r.currency r.discount_percent).snd.games =
         db.games ++ [⟨db.nextId, TitleNormalizer.normalize r.raw_title,
           slugOf (TitleNormalizer.normalize r.raw_title)⟩]) := by
    intro db' hg hn
    unfold gameStep
    dsimp only
    rw [hg, hn, List.append_nil]
    split
    · left
      rw [listingStep_games]
    · next hfind =>
        split
        · left; rfl
        · right
          refine ⟨hfind, ?_⟩
          rw [listingStep_games]
  split
  · exact hgame _ rfl rfl
  · split
    · left; rfl
    · exact hgame _ rfl rfl

lemma ingest_empty_games (r : ScrapedRecord) :
    (ingestRecord noInterference emptyDB r).snd.games =
      [⟨0, TitleNormalizer.normalize r.raw_title,
        slugOf (TitleNormalizer.normalize r.raw_title)⟩] := by
  simp only [ingestRecord, process_scraped_game, gameStep, listingStep, priceStep,
    noInterference, emptyDB, storeConflict, gameConflict, listingConflict,
    List.find?_nil, List.nil_append, List.append_nil, List.any_nil,
    Bool.false_eq_true, if_false]

lemma ingest_preserves_slug_count (s : String) (db : DB) (r : ScrapedRecord)
    (ht : slugOf (TitleNormalizer.normalize r.raw_title) = s)
    (h1 : (db.games.filter (fun g => g.slug == s)).length = 1) :
    ((ingestRecord noInterference db r).snd.games.filter
      (fun g => g.slug == s)).length = 1 := by
  rcases ingest_games_cases db r with h | ⟨hfind, _⟩
  · rw [h]; exact h1
  · exfalso
    rw [ht, List.find?_eq_none] at hfind
    have hne : db.games.filter (fun g => g.slug == s) ≠ [] := by
      intro hnil
      rw [hnil] at h1
      cases h1
    obtain ⟨g, hg⟩ := List.exists_mem_of_ne_nil _ hne
    have hmem := List.mem_filter.mp hg
    exact hfind g hmem.1 hmem.2

lemma ingest_preserves_slug_nodup (db : DB) (r : ScrapedRecord)
    (h : (db.games.map (fun g => g.slug)).Nodup) :
    ((ingestRecord noInterference db r).snd.games.map (fun g => g.slug)).Nodup := by
  rcases ingest_games_cases db r with hc | ⟨hfind, hc⟩
  · rw [hc]; exact h
  · rw [hc, List.map_append, List.nodup_append]
    refine ⟨h, List.nodup_singleton _, ?_⟩
    intro a ha hb
    rw [List.map_singleton, List.mem_singleton] at hb
    subst hb
    obtain ⟨g, hg, hgs⟩ := List.mem_map.mp ha
    rw [List.find?_eq_none] at hfind
    exact hfind g hg (by rw [beq_iff_eq]; exact hgs)

lemma ingest_empty_eq (r : ScrapedRecord) :
    (ingestRecord noInterference emptyDB r).snd = afterN r 1 := rfl

lemma ingest_afterN (r : ScrapedRecord) (k : Nat) :
    (ingestRecord noInterference (afterN r (k + 1)) r).snd = afterN r (k + 2) := by
  simp only [ingestRecord, process_scraped_game, gameStep, listingStep, priceStep,
    noInterference, afterN, List.find?_cons, beq_self_eq_true, Bool.and_self,
    if_true, List.append_nil, List.range_succ, List.map_append, List.map_cons,
    List.map_nil, List.append_assoc, List.singleton_append]

lemma ingestIterN_afterN (r : ScrapedRecord) :
    ∀ m k : Nat, ingestIterN r m (afterN r (k + 1)) = afterN r (k + 1 + m) := by
  intro m
  induction m with
  | zero => intro k; rfl
  | succ m ih =>
    intro k
    rw [ingestIterN, ingest_afterN r k, show k + 2 = (k + 1) + 1 from rfl, ih (k + 1)]
    congr 1
    omega

lemma ingestIterN_closed (r : ScrapedRecord) (n : Nat) (h : 1 ≤ n) :
    ingestIterN r n emptyDB = afterN r n := by
  obtain ⟨m, rfl⟩ : ∃ m, n = m + 1 := ⟨n - 1, by omega⟩
  rw [ingestIterN, ingest_empty_eq, show (1 : Nat) = 0 + 1 from rfl,
    ingestIterN_afterN r m 0]
  congr 1
  omega

lemma ingestAll_cons (r : ScrapedRecord) (rest : List ScrapedRecord) (db : DB) :
    ingestAll (r :: rest) db = ingestAll rest (ingestRecord noInterference db r).snd := rfl

lemma ingestAll_inv (s : String) :
    ∀ (recs : List ScrapedRecord) (db : DB),
    (∀ r ∈ recs, slugOf (TitleNormalizer.normalize r.raw_title) = s) →
    (db.games.filter (fun g => g.slug == s)).length = 1 →
    (db.games.map (fun g => g.slug)).Nodup →
    (((ingestAll recs db).games.filter (fun g => g.slug == s)).length = 1 ∧
     ((ingestAll recs db).games.map (fun g => g.slug)).Nodup) := by
  intro recs
  induction recs with
  | nil => intro db _ h1 h2; exact ⟨h1, h2⟩
  | cons r rest ih =>
    intro db hall h1 h2
    rw [ingestAll_cons]
    exact ih _ (fun x hx => hall x (List.mem_cons_of_mem r hx))
      (ingest_preserves_slug_count s db r (hall r (List.mem_cons_self r rest)) h1)
      (ingest_preserves_slug_nodup db r h2)

/-- Claim C3, counterexample: title normalization is not idempotent.  For the
input "xbox-one", the first pass turns the hyphen into a space after the
stop-word loop has already run, yielding "xbox one"; a second pass then
removes the whole-word stop word "xbox one", yielding the empty string. -/
theorem c3_normalize_not_idempotent :
    TitleNormalizer.normalize (TitleNormalizer.normalize "xbox-one") ≠
      TitleNormalizer.normalize "xbox-one" := by decide

/-- Claim C3, amended: `normalize` is idempotent on every input whose
normalized form contains no whole-word occurrence of a stop word (the
punctuation and whitespace steps can otherwise manufacture a new multi-word
stop-word occurrence that only a second pass removes). -/
theorem c3_normalize_idempotent_amended (x : String)
    (h : noStopWordMatch (TitleNormalizer.normalize x).data = true) :
    TitleNormalizer.normalize (TitleNormalizer.normalize x) =
      TitleNormalizer.normalize x := by
  obtain ⟨ha, hn, hh, hl⟩ := normalize_shape x
  exact normalize_fix_of_clean (TitleNormalizer.normalize x) ha hn hh hl h

/-- Witness for the amended claim C3 at the concrete title "Hades". -/
theorem c3_normalize_idempotent_amended_witness :
    noStopWordMatch (TitleNormalizer.normalize "Hades").data = true ∧
    TitleNormalizer.normalize (TitleNormalizer.normalize "Hades") =
      TitleNormalizer.normalize "Hades" :=
  ⟨by decide, c3_normalize_idempotent_amended "Hades" (by decide)⟩

/-- Claim C6: filler-token removal uses whole-word matching only.  For every
title in which no stop word occurs as a whole word (in particular every title
where a stop word occurs only as a proper substring of a longer word — no
regex word boundary surrounds such an occurrence), the stop-word step removes
nothing, and `normalize` is the remaining pipeline without that step. -/
theorem c6_whole_word_filtering (raw : String)
    (h : noStopWordMatch (stripTrademarks (raw.data.map lowerCh)) = true) :
    removeStopWords (stripTrademarks (raw.data.map lowerCh)) =
      stripTrademarks (raw.data.map lowerCh) ∧
    TitleNormalizer.normalize raw =
      String.mk (stripCh (collapseWs (punctToSpace
        (stripTrademarks (raw.data.map lowerCh))))) := by
  refine ⟨removeStopWords_of_no_match _ h, ?_⟩
  unfold TitleNormalizer.normalize
  rw [removeStopWords_of_no_match _ h]

/-- Witness for claim C6 at the concrete title "PCGames", which contains the
stop word "pc" only as a proper substring of a longer word. -/
theorem c6_whole_word_filtering_witness :
    noStopWordMatch (stripTrademarks ("PCGames".data.map lowerCh)) = true ∧
    (removeStopWords (stripTrademarks ("PCGames".data.map lowerCh)) =
      stripTrademarks ("PCGames".data.map lowerCh) ∧
    TitleNormalizer.normalize "PCGames" =
      String.mk (stripCh (collapseWs (punctToSpace
        (stripTrademarks ("PCGames".data.map lowerCh)))))) :=
  ⟨by decide, c6_whole_word_filtering "PCGames" (by decide)⟩

/-- Claim C8: the extractors resolve empty or ambiguous input to zero-value
defaults: `extract_price("")` is 0, `extract_price("Free")` is 0,
`extract_discount("-50%")` is 50 (the first integer substring), and
`extract_discount("")` is 0. -/
theorem c8_extractor_defaults :
    extract_price "" = 0 ∧ extract_price "Free" = 0 ∧
    extract_discount "-50%" = 50 ∧ extract_discount "" = 0 :=
  ⟨by decide, by decide, by decide, by decide⟩

/-- Claim C1, counterexample: when a concurrent writer creates the game row
for slug "it-takes-two" between the find and the commit of the game step,
`process_scraped_game` does not retry the find: the duplicate-key violation
is surfaced to the caller instead of the resolved game. -/
theorem c1_conflict_surfaced_counterexample :
    (process_scraped_game ⟨[], [⟨100, "it takes two", "it-takes-two"⟩], []⟩
        emptyDB 1 "Steam" "It Takes Two" "292030" "u" 10 "USD" 0).fst
      = Except.error DBErr.integrityError := by decide

/-- Claim C1, amended: if a concurrent writer commits a game with the same
slug between the find and the commit of the game step, `process_scraped_game`
has no retry: the `IntegrityError` propagates to the caller, whatever the
prior database contents and arguments. -/
theorem c1_no_retry_amended (db : DB) (g : Game) (sid : Nat)
    (sname rt rid url : String) (p : ℚ) (cur : String) (dp : ℤ)
    (hfind : db.games.find?
      (fun x => x.slug == slugOf (TitleNormalizer.normalize rt)) = none)
    (hslug : g.slug = slugOf (TitleNormalizer.normalize rt)) :
    (process_scraped_game ⟨[], [g], []⟩ db sid sname rt rid url p cur dp).fst
      = Except.error DBErr.integrityError := by
  have hgame : ∀ db' : DB, db'.games = db.games →
      (gameStep ⟨[], [g], []⟩ db' sid rt rid url p cur dp).fst
        = Except.error DBErr.integrityError := by
    intro db' hg
    unfold gameStep
    dsimp only
    rw [hg, hfind]
    dsimp only
    split
    · rfl
    · next hcond =>
        exfalso
        apply hcond
        simp only [gameConflict, List.any_append, List.any_cons, List.any_nil,
          Bool.or_false, Bool.or_eq_true]
        right
        right
        rw [hslug]
        simp only [beq_self_eq_true, Bool.or_true]
  unfold process_scraped_game
  dsimp only
  rw [List.append_nil]
  split
  · exact hgame _ rfl
  · split
    · rfl
    · exact hgame _ rfl

/-- Witness for the amended claim C1: fresh empty database, a concurrent
writer inserts the game for slug "it-takes-two" inside the race window. -/
theorem c1_no_retry_amended_witness :
    emptyDB.games.find?
      (fun x => x.slug == slugOf (TitleNormalizer.normalize "It Takes Two")) = none ∧
    (⟨100, "it takes two", "it-takes-two"⟩ : Game).slug
      = slugOf (TitleNormalizer.normalize "It Takes Two") ∧
    (process_scraped_game ⟨[], [⟨100, "it takes two", "it-takes-two"⟩], []⟩
        emptyDB 2 "Epic Games" "It Takes Two" "ab12" "u" 10 "USD" 0).fst
      = Except.error DBErr.integrityError :=
  ⟨by decide, by decide,
   c1_no_retry_amended emptyDB ⟨100, "it takes two", "it-takes-two"⟩ 2
     "Epic Games" "It Takes Two" "ab12" "u" 10 "USD" 0 (by decide) (by decide)⟩

/-- Claim C2, counterexample: each step of `process_scraped_game` commits
separately, so when the listing step fails on a duplicate-key violation
(a concurrent writer created the listing first), the store and game rows
created by the same call remain persisted even though the call fails — the
caller does not observe all-or-nothing behavior. -/
theorem c2_partial_persistence_counterexample :
    (process_scraped_game ⟨[], [], [⟨77, 50, 1, "292030", "x", "u"⟩]⟩ emptyDB
        1 "Steam" "It Takes Two" "292030" "u2" 10 "USD" 0).fst
      = Except.error DBErr.integrityError ∧
    (process_scraped_game ⟨[], [], [⟨77, 50, 1, "292030", "x", "u"⟩]⟩ emptyDB
        1 "Steam" "It Takes Two" "292030" "u2" 10 "USD" 0).snd.stores
      = [⟨1, "Steam", "https://example.com"⟩] ∧
    (process_scraped_game ⟨[], [], [⟨77, 50, 1, "292030", "x", "u"⟩]⟩ emptyDB
        1 "Steam" "It Takes Two" "292030" "u2" 10 "USD" 0).snd.games
      = [⟨0, "it takes two", "it-takes-two"⟩] :=
  ⟨by decide, by decide, by decide⟩

/-- Claim C2, amended: a failure mid-sequence can leave earlier steps' rows
(store, game) persisted, but never a partially-linked listing: every listing
in the final database is a pre-existing row, a concurrent writer's row, or a
row created by this call whose `game_id` and `store_id` both reference rows
present in the final database. -/
theorem c2_no_partially_linked_listing (env : Interference) (db : DB)
    (sid : Nat) (sname rt rid url : String) (p : ℚ) (cur : String) (dp : ℤ) :
    ∀ l ∈ (process_scraped_game env db sid sname rt rid url p cur dp).snd.listings,
      l ∈ db.listings ∨ l ∈ env.listingRows ∨
      ((∃ g ∈ (process_scraped_game env db sid sname rt rid url p cur dp).snd.games,
          g.id = l.game_id) ∧
       (∃ s ∈ (process_scraped_game env db sid sname rt rid url p cur dp).snd.stores,
          s.id = l.store_id)) := by
  intro l hl
  unfold process_scraped_game at hl ⊢
  dsimp only at hl ⊢
  split at hl
  · next s hs =>
    rcases gameStep_listing_mem _ _ _ _ _ _ _ _ _ l hl with h | h | ⟨⟨g, hg, hgid⟩, hsid⟩
    · exact Or.inl h
    · exact Or.inr (Or.inl h)
    · refine Or.inr (Or.inr ⟨⟨g, hg, hgid⟩, ⟨s, ?_, ?_⟩⟩)
      · rw [gameStep_stores]
        dsimp only
        exact List.mem_append.mpr (Or.inl (List.mem_of_find?_eq_some hs))
      · have hpred := List.find?_some hs
        rw [hsid]
        exact eq_of_beq hpred
  · split at hl
    · exact Or.inl hl
    · next hcond =>
        rw [if_neg hcond]
        rcases gameStep_listing_mem _ _ _ _ _ _ _ _ _ l hl with h | h | ⟨⟨g, hg, hgid⟩, hsid⟩
        · exact Or.inl h
        · exact Or.inr (Or.inl h)
        · refine Or.inr (Or.inr ⟨⟨g, hg, hgid⟩, ⟨⟨sid, sname, "https://example.com"⟩, ?_, ?_⟩⟩)
          · rw [gameStep_stores]
            dsimp only
            exact List.mem_append.mpr (Or.inr (List.mem_singleton.mpr rfl))
          · rw [hsid]

/-- Witness for the amended claim C2: the listing created by a successful
call on the empty database references the game and store present in the
final database. -/
theorem c2_no_partially_linked_listing_witness :
    (⟨1, 0, 1, "292030", "It Takes Two", "u"⟩ : GameListing) ∈ emptyDB.listings ∨
    (⟨1, 0, 1, "292030", "It Takes Two", "u"⟩ : GameListing) ∈ noInterference.listingRows ∨
    ((∃ g ∈ (process_scraped_game noInterference emptyDB 1 "Steam" "It Takes Two"
          "292030" "u" 10 "USD" 0).snd.games,
        g.id = (⟨1, 0, 1, "292030", "It Takes Two", "u"⟩ : GameListing).game_id) ∧
     (∃ s ∈ (process_scraped_game noInterference emptyDB 1 "Steam" "It Takes Two"
          "292030" "u" 10 "USD" 0).snd.stores,
        s.id = (⟨1, 0, 1, "292030", "It Takes Two", "u"⟩ : GameListing).store_id)) :=
  c2_no_partially_linked_listing noInterference emptyDB 1 "Steam" "It Takes Two"
    "292030" "u" 10 "USD" 0 ⟨1, 0, 1, "292030", "It Takes Two", "u"⟩ (by decide)

/-- Claim C4: ingesting the same record `n ≥ 1` times sequentially from the
empty database creates exactly one listing for its `(store_id, remote_id)`
pair (the first call creates it, later calls reuse it), and every call
unconditionally appends one `PriceHistory` row, so the single listing ends
with exactly `n` price rows. -/
theorem c4_listing_reuse_price_append (r : ScrapedRecord) (n : Nat)
    (h : 1 ≤ n) :
    ((ingestIterN r n emptyDB).listings.filter
        (fun l => l.store_id == r.store_id && l.remote_id == r.remote_id)).length = 1 ∧
    (ingestIterN r n emptyDB).listings.length = 1 ∧
    (ingestIterN r n emptyDB).prices.length = n ∧
    ∀ p ∈ (ingestIterN r n emptyDB).prices,
      ∀ l ∈ (ingestIterN r n emptyDB).listings, p.listing_id = l.id := by
  rw [ingestIterN_closed r n h]
  refine ⟨?_, rfl, ?_, ?_⟩
  · simp [afterN]
  · simp [afterN]
  · intro p hp l hl
    simp only [afterN, List.mem_singleton] at hl
    simp only [afterN, List.mem_map, List.mem_range] at hp
    obtain ⟨i, _, rfl⟩ := hp
    rw [hl]

/-- Witness for claim C4 at a concrete record and `n = 2`. -/
theorem c4_listing_reuse_price_append_witness :
    ((ingestIterN ⟨1, "Steam", "It Takes Two", "292030", "u", 10, "USD", 0⟩ 2
        emptyDB).listings.filter (fun l => l.store_id == 1 && l.remote_id == "292030")).length = 1 ∧
    (ingestIterN ⟨1, "Steam", "It Takes Two", "292030", "u", 10, "USD", 0⟩ 2
        emptyDB).listings.length = 1 ∧
    (ingestIterN ⟨1, "Steam", "It Takes Two", "292030", "u", 10, "USD", 0⟩ 2
        emptyDB).prices.length = 2 ∧
    ∀ p ∈ (ingestIterN ⟨1, "Steam", "It Takes Two", "292030", "u", 10, "USD", 0⟩ 2
        emptyDB).prices,
      ∀ l ∈ (ingestIterN ⟨1, "Steam", "It Takes Two", "292030", "u", 10, "USD", 0⟩ 2
        emptyDB).listings, p.listing_id = l.id :=
  c4_listing_reuse_price_append ⟨1, "Steam", "It Takes Two", "292030", "u", 10, "USD", 0⟩
    2 (by decide)

/-- Claim C5: when every ingested record's raw title normalizes to the same
canonical title, any nonempty sequence of sequential ingestions from the
empty database resolves to exactly one game row with the shared slug, and
slug values remain unique across all games. -/
theorem c5_slug_unique_single_game (t1 t2 : String) (recs : List ScrapedRecord)
    (h12 : TitleNormalizer.normalize t1 = TitleNormalizer.normalize t2)
    (hne : recs ≠ [])
    (hall : ∀ r ∈ recs, r.raw_title = t1 ∨ r.raw_title = t2) :
    ((ingestAll recs emptyDB).games.filter
        (fun g => g.slug == slugOf (TitleNormalizer.normalize t1))).length = 1 ∧
    ((ingestAll recs emptyDB).games.map (fun g => g.slug)).Nodup := by
  cases recs with
  | nil => exact absurd rfl hne
  | cons r rest =>
    have hslug : ∀ x ∈ r :: rest,
        slugOf (TitleNormalizer.normalize x.raw_title)
          = slugOf (TitleNormalizer.normalize t1) := by
      intro x hx
      rcases hall x hx with ht | ht
      · rw [ht]
      · rw [ht, ← h12]
    rw [ingestAll_cons]
    refine ingestAll_inv (slugOf (TitleNormalizer.normalize t1)) rest _
      (fun x hx => hslug x (List.mem_cons_of_mem r hx)) ?_ ?_
    · rw [ingest_empty_games r]
      have hs := hslug r (List.mem_cons_self r rest)
      simp [List.filter_cons, hs]
    · rw [ingest_empty_games r]
      exact List.nodup_singleton _

/-- Witness for claim C5: two raw titles that normalize identically, ingested
sequentially as three records over two stores, yield one game row. -/
theorem c5_slug_unique_single_game_witness :
    TitleNormalizer.normalize "The Witcher 3"
      = TitleNormalizer.normalize "The Witcher® 3: PC" ∧
    ([⟨1, "Steam", "The Witcher 3", "292030", "u", 10, "USD", 0⟩,
      ⟨2, "Epic Games", "The Witcher® 3: PC", "ab", "u2", 12, "USD", 0⟩,
      ⟨1, "Steam", "The Witcher 3", "292030", "u", 9, "USD", 5⟩]
        : List ScrapedRecord) ≠ [] ∧
    (∀ r ∈ ([⟨1, "Steam", "The Witcher 3", "292030", "u", 10, "USD", 0⟩,
      ⟨2, "Epic Games", "The Witcher® 3: PC", "ab", "u2", 12, "USD", 0⟩,
      ⟨1, "Steam", "The Witcher 3", "292030", "u", 9, "USD", 5⟩]
        : List ScrapedRecord),
      r.raw_title = "The Witcher 3" ∨ r.raw_title = "The Witcher® 3: PC") ∧
    (((ingestAll [⟨1, "Steam", "The Witcher 3", "292030", "u", 10, "USD", 0⟩,
        ⟨2, "Epic Games", "The Witcher® 3: PC", "ab", "u2", 12, "USD", 0⟩,
        ⟨1, "Steam", "The Witcher 3", "292030", "u", 9, "USD", 5⟩] emptyDB).games.filter
          (fun g => g.slug == slugOf (TitleNormalizer.normalize "The Witcher 3"))).length = 1 ∧
     ((ingestAll [⟨1, "Steam", "The Witcher 3", "292030", "u", 10, "USD", 0⟩,
        ⟨2, "Epic Games", "The Witcher® 3: PC", "ab", "u2", 12, "USD", 0⟩,
        ⟨1, "Steam", "The Witcher 3", "292030", "u", 9, "USD", 5⟩] emptyDB).games.map
          (fun g => g.slug)).Nodup) :=
  ⟨by decide, by decide, by decide,
   c5_slug_unique_single_game "The Witcher 3" "The Witcher® 3: PC"
     [⟨1, "Steam", "The Witcher 3", "292030", "u", 10, "USD", 0⟩,
      ⟨2, "Epic Games", "The Witcher® 3: PC", "ab", "u2", 12, "USD", 0⟩,
      ⟨1, "Steam", "The Witcher 3", "292030", "u", 9, "USD", 5⟩]
     (by decide) (by decide) (by decide)⟩

/-- Claim C7, counterexample: `to_usd(x, "USD")` is not the identity for
every amount: the code rounds to two decimal places, so 19.999 becomes
20.00. -/
theorem c7_usd_not_identity_counterexample :
    convert_to_usd (19999/1000) "USD" = 20 ∧ (20 : ℚ) ≠ 19999/1000 := by
  constructor
  · have h : lookupRate "USD" = 1 := rfl
    rw [convert_to_usd, h, pyRound2]
    have h2 : (19999/1000 * 1 * 100 : ℚ) = 19999/10 := by norm_num
    rw [h2, pyRoundInt]
    norm_num
  · norm_num

/-- Claim C7, amended: conversion multiplies by the static rate (a currency
code missing from the table defaults to rate 1.0) and rounds to two decimal
places; `to_usd(19.99, "EUR")` with rate 1.08 yields 21.59; and
`to_usd(x, "USD")` equals `x` exactly for the amounts `x` with at most two
decimal places (`100·x` integral), not for every amount. -/
theorem c7_conversion_amended :
    (∀ (p : ℚ) (cur : String),
      CONVERSION_RATES.find?
          (fun e => e.fst == String.mk (cur.data.map upperCh)) = none →
      convert_to_usd p cur = pyRound2 p) ∧
    convert_to_usd (1999/100) "EUR" = 2159/100 ∧
    (∀ (x : ℚ) (m : ℤ), x * 100 = (m : ℚ) → convert_to_usd x "USD" = x) := by
  refine ⟨?_, ?_, ?_⟩
  · intro p cur hnone
    rw [convert_to_usd, lookupRate, hnone, mul_one]
  · have h : lookupRate "EUR" = 108/100 := rfl
    rw [convert_to_usd, h, pyRound2]
    have h2 : (1999/100 * (108/100) * 100 : ℚ) = 107946/50 := by norm_num
    rw [h2, pyRoundInt]
    norm_num
  · intro x m hm
    have h : lookupRate "USD" = 1 := rfl
    rw [convert_to_usd, h, mul_one, pyRound2, hm, pyRoundInt]
    rw [Int.floor_intCast]
    norm_num
    rw [← hm]
    field_simp

/-- Witness for the amended claim C7: an unknown currency code, the EUR
example, and a two-decimal USD amount. -/
theorem c7_conversion_amended_witness :
    convert_to_usd (7/2) "XYZ" = pyRound2 (7/2) ∧
    convert_to_usd (1999/100) "EUR" = 2159/100 ∧
    convert_to_usd (2159/100) "USD" = 2159/100 :=
  ⟨c7_conversion_amended.1 (7/2) "XYZ" (by decide),
   c7_conversion_amended.2.1,
   c7_conversion_amended.2.2 (2159/100) 2159 (by norm_num)⟩

/-- Claim C10: titles consisting only of filler tokens normalize to the empty
string, and ingesting two such titles resolves both to the single game whose
title and slug are empty. -/
theorem c10_filler_only_empty_game :
    TitleNormalizer.normalize "Deluxe Edition" = "" ∧
    TitleNormalizer.normalize "PC" = "" ∧
    (process_scraped_game noInterference emptyDB 1 "Steam" "Deluxe Edition"
        "111" "u" 10 "USD" 0).fst = Except.ok ⟨0, "", ""⟩ ∧
    (process_scraped_game noInterference
        (process_scraped_game noInterference emptyDB 1 "Steam" "Deluxe Edition"
          "111" "u" 10 "USD" 0).snd
        2 "Epic Games" "PC" "222" "u2" 5 "USD" 0).fst = Except.ok ⟨0, "", ""⟩ ∧
    (process_scraped_game noInterference
        (process_scraped_game noInterference emptyDB 1 "Steam" "Deluxe Edition"
          "111" "u" 10 "USD" 0).snd
        2 "Epic Games" "PC" "222" "u2" 5 "USD" 0).snd.games = [⟨0, "", ""⟩] :=
  ⟨by decide, by decide, by decide, by decide, by decide⟩
